import Mathlib

/-!
# Verification of the file-forge conversion core

Shallow embedding of `src/lib/convert-core.ts` (a Raycast file-conversion
extension).  Pure functions of the source are translated directly; effectful
functions (tool probing, process invocation, clipboard access, filesystem
access) are embedded by passing the effect results in as explicit parameters
and returning the externally visible actions (process invocations) explicitly.

Node/JS library primitives used by the source (`String.prototype.trim`,
`String.prototype.toLowerCase`, `path.basename`/`extname`/`dirname`/`join`,
`Array.prototype.sort`, `Set`) are modelled below, faithful to their
documented behaviour on the inputs the program feeds them.
-/

namespace FileForge

/-! ## JS string primitives -/

/-- Model of the JavaScript whitespace class used by `String.prototype.trim`
(space 32, tab 9, LF 10, CR 13, VT 11, FF 12, NBSP 160, BOM 65279). -/
def isJsWs (c : Char) : Bool :=
  c.toNat == 32 || c.toNat == 9 || c.toNat == 10 || c.toNat == 13 ||
  c.toNat == 11 || c.toNat == 12 || c.toNat == 160 || c.toNat == 65279

/-- Model of `String.prototype.toLowerCase` on a single character (the extension
strings the program handles are ASCII; code points 65–90 map down by 32). -/
def lowerChar (c : Char) : Char :=
  if 65 ≤ c.toNat ∧ c.toNat ≤ 90 then Char.ofNat (c.toNat + 32) else c

/-- Drop leading JS whitespace. -/
def dropLeadWs (l : List Char) : List Char := l.dropWhile isJsWs

/-- Drop trailing JS whitespace. -/
def dropTrailWs (l : List Char) : List Char := (l.reverse.dropWhile isJsWs).reverse

/-- Model of `String.prototype.trim`. -/
def trimChars (l : List Char) : List Char := dropTrailWs (dropLeadWs l)

/-- Model of `String.prototype.trim` on `String`. -/
def jsTrim (s : String) : String := ⟨trimChars s.data⟩

/-- Model of `value.replace(/^\./, "")`: remove one leading dot, if present. -/
def stripDotChars : List Char → List Char
  | [] => []
  | c :: rest => if c = '.' then rest else c :: rest

/-- Body of `normalizeExt` on character lists: `value.trim().replace(/^\./, "").toLowerCase()`. -/
def normChars (l : List Char) : List Char :=
  (stripDotChars (trimChars l)).map lowerChar

/-- Source: `export const normalizeExt = (value) => value.trim().replace(/^\./, "").toLowerCase()`. -/
def normalizeExt (s : String) : String := ⟨normChars s.data⟩

/-! ## Node `path` primitives (POSIX flavour) -/

/-- The largest index `i ≥ 1` carrying `'/'` in `l`, if any — the scan node's
`path.dirname` performs after skipping trailing slashes. -/
def lastSlashGe1 (l : List Char) : Option Nat :=
  ((List.range l.length).filter
    (fun i => decide (1 ≤ i) && (l.getD i ' ' == '/'))).getLast?

/-- Model of node's POSIX `path.dirname`. -/
def dirname (p : String) : String :=
  match p.data with
  | [] => "."
  | c0 :: rest =>
    let hasRoot := c0 = '/'
    let stripped := ((c0 :: rest).reverse.dropWhile (fun c => c == '/')).reverse
    match lastSlashGe1 stripped with
    | none => if hasRoot then "/" else "."
    | some e => if hasRoot ∧ e = 1 then "//" else ⟨(c0 :: rest).take e⟩

/-- Model of node's POSIX `path.basename` (no suffix argument): the portion
after the last `'/'`, ignoring trailing slashes. -/
def basename (p : String) : String :=
  ⟨((p.data.reverse.dropWhile (fun c => c == '/')).takeWhile (fun c => c != '/')).reverse⟩

/-- Last index of `c` in `l`, if any. -/
def lastIdxOf (c : Char) (l : List Char) : Option Nat :=
  ((List.range l.length).filter (fun i => l.getD i ' ' == c)).getLast?

/-- Model of node's POSIX `path.extname`: from the last dot of the basename to
the end; empty when the basename has no dot, starts with its only dot, or is
`".."`. -/
def extname (p : String) : String :=
  let b := (basename p).data
  if b = ['.', '.'] then "" else
  match lastIdxOf '.' b with
  | none => ""
  | some 0 => ""
  | some i => ⟨b.drop i⟩

/-- Model of `path.basename(p, path.extname(p))`: the basename with its
extension suffix removed (node strips the suffix when it is a proper trailing
match of the basename). -/
def basenameStem (p : String) : String :=
  let b := (basename p).data
  let e := (extname p).data
  if e ≠ [] ∧ e ≠ b ∧ e.isSuffixOf b then ⟨b.take (b.length - e.length)⟩ else ⟨b⟩

/-- Model of node's `path.join` on one directory and one relative filename, as
the source always calls it (both arguments already normalized). -/
def pathJoin (dir fname : String) : String := dir ++ "/" ++ fname

/-! ## Data model (`convert-core.ts` types) -/

inductive ConverterKind
  | magick
  | ffmpeg
  | pandoc
  | libreoffice
deriving DecidableEq, Repr

inductive OutputDestination
  | clipboard
  | save
  | both
deriving DecidableEq, Repr

inductive FileCategory
  | image
  | audio
  | video
  | doc
  | unknown
deriving DecidableEq, Repr

structure ToolFormats where
  bin : String
  input : List String
  output : List String
deriving DecidableEq, Repr

structure ConverterDecision where
  kind : ConverterKind
  tool : ToolFormats
  category : FileCategory
  defaultOutput : String
deriving DecidableEq, Repr

/-! ## Extension tables -/

/-- Table `imagePreferredExts` (a JS `Set`, modelled as its membership list). -/
def imagePreferredExts : List String :=
  ["png", "jpg", "jpeg", "gif", "webp", "bmp", "tif", "tiff", "heic", "heif",
   "avif", "svg", "ico", "psd", "tga"]

def audioExts : List String :=
  ["aac", "aiff", "alac", "flac", "m4a", "mp3", "ogg", "opus", "wav", "wma"]

def videoExts : List String :=
  ["avi", "mkv", "mov", "mp4", "m4v", "webm", "wmv", "flv"]

def libreOfficeInput : List String :=
  ["doc", "docx", "xls", "xlsx", "ppt", "pptx", "odt", "ods", "odp", "rtf",
   "txt", "csv", "html", "htm"]

def libreOfficeOutput : List String :=
  ["pdf", "docx", "xlsx", "pptx", "odt", "ods", "odp", "rtf", "txt", "html"]

/-- Descriptor `ensureLibreOffice` builds for whichever binary it found
(both its success paths use the same two hard-coded format lists). -/
def libreOfficeDescriptor (bin : String) : ToolFormats :=
  { bin := bin, input := libreOfficeInput, output := libreOfficeOutput }

/-! ## `uniqueSorted` -/

/-- JS `Set` insertion-order deduplication (keeps the first occurrence). -/
def dedupFirst : List String → List String
  | [] => []
  | x :: xs => x :: dedupFirst (xs.filter (fun y => y != x))
termination_by l => l.length
decreasing_by
  simp only [List.length_cons]
  exact Nat.lt_succ_of_le (List.length_filter_le _ _)

/-- Source: `const uniqueSorted = (values) => Array.from(new Set(values.filter(Boolean))).sort()`.
`filter(Boolean)` keeps the non-empty strings; default `sort()` is
lexicographic on code units. -/
def uniqueSorted (values : List String) : List String :=
  List.mergeSort (dedupFirst (values.filter (fun s => s != "")))
    (fun a b => a ≤ b)

/-! ## Format classifier -/

/-- Function `getCategory` from the source. -/
def getCategory (ext : String) (kind : ConverterKind) : FileCategory :=
  if kind = ConverterKind.magick then FileCategory.image
  else if kind = ConverterKind.pandoc ∨ kind = ConverterKind.libreoffice then FileCategory.doc
  else if audioExts.contains ext then FileCategory.audio
  else if videoExts.contains ext then FileCategory.video
  else FileCategory.unknown

/-- The `preferredByCategory` table inside `pickDefaultOutput`. -/
def preferredByCategory : FileCategory → List String
  | FileCategory.image => ["png", "jpg", "jpeg", "webp"]
  | FileCategory.audio => ["wav", "mp3", "aac"]
  | FileCategory.video => ["mp4", "mov", "mkv"]
  | FileCategory.doc => ["pdf", "docx", "txt"]
  | FileCategory.unknown => ["png", "pdf", "mp4"]

/-- Function `pickDefaultOutput`: first preferred candidate contained in `outputs`,
else `outputs[0] ?? preferred[0] ?? "png"`. -/
def pickDefaultOutput (category : FileCategory) (outputs : List String) : String :=
  match (preferredByCategory category).find? (fun cand => outputs.contains cand) with
  | some cand => cand
  | none => (outputs.head?).getD (((preferredByCategory category).head?).getD "png")

/-! ## Converter resolver -/

/-- Each success branch of `detectConverter` builds this same record shape. -/
def mkDecision (kind : ConverterKind) (tool : ToolFormats) (ext : String) : ConverterDecision :=
  let category := getCategory ext kind
  { kind := kind, tool := tool, category := category,
    defaultOutput := pickDefaultOutput category tool.output }

/-- Guard `tool?.input.includes(ext)` with optional chaining. -/
def optInputHas (tool : Option ToolFormats) (ext : String) : Bool :=
  match tool with
  | some t => t.input.contains ext
  | none => false

/-- Function `detectConverter`, with the four `ensure*` probe results passed in as
parameters (the source awaits them first and then branches purely). -/
def detectConverter (ext : String)
    (magick ffmpeg pandoc libreoffice : Option ToolFormats) :
    Option ConverterDecision :=
  if imagePreferredExts.contains ext && optInputHas magick ext then
    magick.map (fun t => mkDecision ConverterKind.magick t ext)
  else if optInputHas ffmpeg ext then
    ffmpeg.map (fun t => mkDecision ConverterKind.ffmpeg t ext)
  else if optInputHas pandoc ext then
    pandoc.map (fun t => mkDecision ConverterKind.pandoc t ext)
  else if optInputHas libreoffice ext then
    libreoffice.map (fun t => mkDecision ConverterKind.libreoffice t ext)
  else if optInputHas magick ext then
    magick.map (fun t => mkDecision ConverterKind.magick t ext)
  else
    match magick, ffmpeg, pandoc, libreoffice with
    | some t, _, _, _ => some (mkDecision ConverterKind.magick t ext)
    | none, some t, _, _ => some (mkDecision ConverterKind.ffmpeg t ext)
    | none, none, some t, _ => some (mkDecision ConverterKind.pandoc t ext)
    | none, none, none, some t => some (mkDecision ConverterKind.libreoffice t ext)
    | none, none, none, none => none

/-- Resolver written from the spec's §4.3 wording, for refinement comparison:
image tool first when the extension is a recognized image extension in its
input set; then media, markup, office tools by input-set membership; then the
first available tool in the same order as a catch-all; absent when no tool is
available. -/
def detectConverterSpec (ext : String)
    (magick ffmpeg pandoc libreoffice : Option ToolFormats) :
    Option ConverterDecision :=
  if imagePreferredExts.contains ext && optInputHas magick ext then
    magick.map (fun t => mkDecision ConverterKind.magick t ext)
  else if optInputHas ffmpeg ext then
    ffmpeg.map (fun t => mkDecision ConverterKind.ffmpeg t ext)
  else if optInputHas pandoc ext then
    pandoc.map (fun t => mkDecision ConverterKind.pandoc t ext)
  else if optInputHas libreoffice ext then
    libreoffice.map (fun t => mkDecision ConverterKind.libreoffice t ext)
  else
    match magick, ffmpeg, pandoc, libreoffice with
    | some t, _, _, _ => some (mkDecision ConverterKind.magick t ext)
    | none, some t, _, _ => some (mkDecision ConverterKind.ffmpeg t ext)
    | none, none, some t, _ => some (mkDecision ConverterKind.pandoc t ext)
    | none, none, none, some t => some (mkDecision ConverterKind.libreoffice t ext)
    | none, none, none, none => none

/-! ## Output path builder -/

/-- Function `buildOutputPath`.  The two ambient effects — `os.tmpdir()` and
`randomUUID()` — are passed in as the extra leading parameters `tmpdir` and
`token`. -/
def buildOutputPath (tmpdir token : String)
    (inputPath outputExt : String) (outputDir : Option String)
    (destination : OutputDestination) : String :=
  let baseName := basenameStem inputPath
  let safeExt := normalizeExt outputExt
  match destination with
  | OutputDestination.clipboard =>
    pathJoin tmpdir (baseName ++ "-converted-" ++ token ++ "." ++ safeExt)
  | _ =>
    let dir :=
      match outputDir with
      | some d => if d.length > 0 then d else dirname inputPath
      | none => dirname inputPath
    pathJoin dir (baseName ++ "." ++ safeExt)

/-! ## Conversion invoker -/

/-- One external-process invocation: the binary and its argument list. -/
abbrev Invocation := String × List String

/-- The `if (!overwrite) { try { await access(outputPath); throw ... } catch { } }`
block of `convertWithTool`, with the filesystem state passed in as
`outputExists`.  `access` resolving is `Except.ok`, rejecting is
`Except.error`; the `throw` and the `catch` are embedded as written: the
`catch` handles whatever the `try` block raised. -/
def overwritePrecheck (overwrite outputExists : Bool) : Except String Unit :=
  if !overwrite then
    let body : Except String Unit := do
      (if outputExists then Except.ok () else Except.error "ENOENT: no such file or directory")
      Except.error "Output file already exists. Enable overwrite or choose another name."
    match body with
    | Except.error _ => Except.ok ()   -- catch { /* file does not exist */ }
    | Except.ok u => Except.ok u
  else
    Except.ok ()

/-- Function `convertWithTool`, returning the result together with the list of external
process invocations it performed.  The filesystem check is passed in as
`outputExists`; the external processes themselves are modelled as succeeding,
since the properties under study concern the pre-check and the invocations
issued, not the tools' own exit codes. -/
def convertWithTool (inputPath outputPath outputExt : String)
    (overwrite : Bool) (converter : ConverterKind) (tool : ToolFormats)
    (outputExists : Bool) : Except String String × List Invocation :=
  match overwritePrecheck overwrite outputExists with
  | Except.error e => (Except.error e, [])
  | Except.ok _ =>
    match converter with
    | ConverterKind.magick =>
      (Except.ok outputPath, [(tool.bin, [inputPath, outputPath])])
    | ConverterKind.ffmpeg =>
      (Except.ok outputPath,
        [(tool.bin,
          ["-hide_banner", "-loglevel", "error"] ++
          [if overwrite then "-y" else "-n"] ++
          ["-i", inputPath, outputPath])])
    | ConverterKind.pandoc =>
      (Except.ok outputPath, [(tool.bin, [inputPath, "-o", outputPath])])
    | ConverterKind.libreoffice =>
      (Except.ok outputPath,
        [(tool.bin,
          ["--headless", "--convert-to", outputExt, "--outdir",
           dirname outputPath, inputPath])])

/-! ## Clipboard file resolver -/

/-- The `Clipboard.read()` result: optional file reference and optional text. -/
structure ClipboardContent where
  file : Option String
  text : Option String

/-- JS truthiness of an optional string field. -/
def truthy : Option String → Bool
  | some s => s != ""
  | none => false

/-- Check `trimmed.startsWith("file://")`. -/
def hasFileScheme : List Char → Bool
  | 'f' :: 'i' :: 'l' :: 'e' :: ':' :: '/' :: '/' :: _ => true
  | _ => false

/-- The candidate path derived from trimmed clipboard text:
`trimmed.startsWith("file://") ? fileURLToPath(trimmed) : trimmed`, with
`fileURLToPath` (a node library call) passed in as `toPath`. -/
def textPathCandidate (toPath : String → String) (trimmed : String) : String :=
  if hasFileScheme trimmed.data then toPath trimmed else trimmed

/-- Function `readClipboardFile`, with its effects as parameters: `content` is the
`Clipboard.read()` result, `toPath` is `fileURLToPath`, `accessible` is the
`access` check, and `imageCapture` is the result `readClipboardImageToTemp`
would produce.  Returns the resolved path (if any) paired with whether the
platform clipboard-image capture was attempted. -/
def readClipboardFile (content : ClipboardContent)
    (toPath : String → String) (accessible : String → Bool)
    (imageCapture : Option String) : Option String × Bool :=
  if truthy content.file then (content.file, false)
  else if truthy content.text then
    let trimmed := jsTrim (content.text.getD "")
    if trimmed = "" then (none, false)
    else
      let pathCandidate := textPathCandidate toPath trimmed
      if accessible pathCandidate then (some pathCandidate, false)
      else (none, false)
  else
    match imageCapture with
    | some p => (some p, true)
    | none => (none, true)

/-! ## Helper lemmas -/

theorem pick_mem (c : FileCategory) (outputs : List String) (h : outputs ≠ []) :
    pickDefaultOutput c outputs ∈ outputs := by
  unfold pickDefaultOutput
  cases hf : (preferredByCategory c).find? (fun cand => outputs.contains cand) with
  | some cand =>
    have := List.find?_some hf
    simpa using this
  | none =>
    cases outputs with
    | nil => exact absurd rfl h
    | cons x xs => simp

theorem pick_nil (c : FileCategory) :
    pickDefaultOutput c [] = ((preferredByCategory c).headD "png") := by
  cases c <;> rfl

theorem pick_find_none (c : FileCategory) (outputs : List String)
    (hf : (preferredByCategory c).find? (fun cand => outputs.contains cand) = none) :
    pickDefaultOutput c outputs = (outputs.head?).getD (((preferredByCategory c).head?).getD "png") := by
  unfold pickDefaultOutput
  rw [hf]

theorem pick_find_some (c : FileCategory) (outputs : List String) (cand : String)
    (hf : (preferredByCategory c).find? (fun x => outputs.contains x) = some cand) :
    pickDefaultOutput c outputs = cand := by
  unfold pickDefaultOutput
  rw [hf]

theorem map_mkDecision_eq (k : ConverterKind) (ext : String)
    (o : Option ToolFormats) (d : ConverterDecision)
    (h : o.map (fun t => mkDecision k t ext) = some d) :
    ∃ t, d = mkDecision k t ext := by
  cases o with
  | none => simp at h
  | some t => exact ⟨t, by simpa using h.symm⟩

theorem detectConverter_shape (ext : String)
    (m f p l : Option ToolFormats) (d : ConverterDecision)
    (h : detectConverter ext m f p l = some d) :
    ∃ k t, d = mkDecision k t ext := by
  unfold detectConverter at h
  split_ifs at h
  · exact ⟨_, map_mkDecision_eq ConverterKind.magick ext m d h⟩
  · exact ⟨_, map_mkDecision_eq ConverterKind.ffmpeg ext f d h⟩
  · exact ⟨_, map_mkDecision_eq ConverterKind.pandoc ext p d h⟩
  · exact ⟨_, map_mkDecision_eq ConverterKind.libreoffice ext l d h⟩
  · exact ⟨_, map_mkDecision_eq ConverterKind.magick ext m d h⟩
  · cases m with
    | some t => exact ⟨_, t, by simpa using h.symm⟩
    | none =>
      cases f with
      | some t => exact ⟨_, t, by simpa using h.symm⟩
      | none =>
        cases p with
        | some t => exact ⟨_, t, by simpa using h.symm⟩
        | none =>
          cases l with
          | some t => exact ⟨_, t, by simpa using h.symm⟩
          | none => simp at h

/-! ## Claim theorems -/

/-- C1 (code bug): for every conversion request with `overwrite = false` whose
output path already exists, `convertWithTool` does NOT fail — the
"Output file already exists" error is thrown inside the same `try` block whose
bare `catch` swallows it, so the call proceeds and performs exactly one
external-process invocation instead of the zero the spec requires. -/
theorem convertWithTool_existing_destination_still_invoked :
    ∀ (inputPath outputPath outputExt : String) (converter : ConverterKind)
      (tool : ToolFormats),
      (convertWithTool inputPath outputPath outputExt false converter tool true).2.length = 1 ∧
      (convertWithTool inputPath outputPath outputExt false converter tool true).1 =
        Except.ok outputPath := by
  intro inputPath outputPath outputExt converter tool
  cases converter <;> exact ⟨rfl, rfl⟩

/-- C3: for every category and non-empty `outputs`, `pickDefaultOutput`
returns a member of `outputs`: the first entry of the category's preference
list present in `outputs`, or, when none is present, the first element of
`outputs`. -/
theorem pickDefaultOutput_mem_of_ne_nil :
    ∀ (c : FileCategory) (outputs : List String), outputs ≠ [] →
      pickDefaultOutput c outputs ∈ outputs ∧
      pickDefaultOutput c outputs =
        (((preferredByCategory c).find? (fun cand => outputs.contains cand)).getD
          (outputs.headD "")) := by
  intro c outputs h
  refine ⟨pick_mem c outputs h, ?_⟩
  cases hf : (preferredByCategory c).find? (fun cand => outputs.contains cand) with
  | some cand => rw [pick_find_some c outputs cand hf, Option.getD_some]
  | none =>
    rw [pick_find_none c outputs hf, Option.getD_none]
    cases outputs with
    | nil => exact absurd rfl h
    | cons x xs => rfl

/-- Witness for C3 at a concrete input (the spec's `clip.mov` scenario:
video category, available outputs `mp4, mov, mkv`). -/
theorem pickDefaultOutput_mem_of_ne_nil_witness :
    pickDefaultOutput FileCategory.video ["mp4", "mov", "mkv"] ∈ (["mp4", "mov", "mkv"] : List String) ∧
    pickDefaultOutput FileCategory.video ["mp4", "mov", "mkv"] =
      (((preferredByCategory FileCategory.video).find?
          (fun cand => (["mp4", "mov", "mkv"] : List String).contains cand)).getD
        ((["mp4", "mov", "mkv"] : List String).headD "")) :=
  pickDefaultOutput_mem_of_ne_nil FileCategory.video ["mp4", "mov", "mkv"] (by decide)

/-- C4: with an empty outputs list, `pickDefaultOutput` falls back to the
first entry of the category's preference list (with the fixed `"png"` default
behind it) and always produces a non-empty string. -/
theorem pickDefaultOutput_nil_nonempty :
    ∀ c : FileCategory,
      pickDefaultOutput c [] = ((preferredByCategory c).headD "png") ∧
      pickDefaultOutput c [] ≠ "" := by
  intro c
  cases c <;> exact ⟨rfl, by decide⟩

/-- Witness for C4 at a concrete category. -/
theorem pickDefaultOutput_nil_nonempty_witness :
    pickDefaultOutput FileCategory.doc [] =
      ((preferredByCategory FileCategory.doc).headD "png") ∧
    pickDefaultOutput FileCategory.doc [] ≠ "" :=
  pickDefaultOutput_nil_nonempty FileCategory.doc

/-- C2: `detectConverter` follows exactly the spec's strict priority order
(image tool for recognized image extensions in its input set, then media,
markup, office tools by input-set membership, then the first available tool in
the same order as a catch-all — the source's extra re-check of the image
tool's input set before the catch-all is subsumed by the catch-all preferring
the image tool), and it returns absent exactly when none of the four tools is
available. -/
theorem detectConverter_priority :
    ∀ (ext : String) (m f p l : Option ToolFormats),
      detectConverter ext m f p l = detectConverterSpec ext m f p l ∧
      (detectConverter ext m f p l = none ↔
        (m = none ∧ f = none ∧ p = none ∧ l = none)) := by
  intro ext m f p l
  refine ⟨?_, ?_⟩
  · unfold detectConverter detectConverterSpec
    split_ifs with h1 h2 h3 h4 h5
    · rfl
    · rfl
    · rfl
    · rfl
    · cases m with
      | none => simp [optInputHas] at h5
      | some t => rfl
    · rfl
  · cases m <;> cases f <;> cases p <;> cases l <;>
      simp only [detectConverter, optInputHas] <;>
      split_ifs <;> simp_all

/-- C5: every decision produced by `detectConverter` has a `defaultOutput`
that is a member of the chosen tool's output set when that set is non-empty;
when the set is empty, `defaultOutput` is the category-specific constant (the
first entry of the category's preference list, backed by the fixed `"png"`
fallback). -/
theorem detectConverter_defaultOutput_mem :
    ∀ (ext : String) (m f p l : Option ToolFormats) (d : ConverterDecision),
      detectConverter ext m f p l = some d →
      (d.tool.output ≠ [] → d.defaultOutput ∈ d.tool.output) ∧
      (d.tool.output = [] →
        d.defaultOutput = ((preferredByCategory d.category).headD "png")) := by
  intro ext m f p l d h
  obtain ⟨k, t, rfl⟩ := detectConverter_shape ext m f p l d h
  simp only [mkDecision]
  constructor
  · intro hne
    exact pick_mem (getCategory ext k) t.output hne
  · intro heq
    rw [heq, pick_nil]

/-- Witness for C5 at a concrete input (the spec's `photo.HEIC` scenario). -/
theorem detectConverter_defaultOutput_mem_witness :
    (mkDecision ConverterKind.magick ⟨"magick", ["heic"], ["png", "jpg", "webp"]⟩ "heic").defaultOutput ∈
      (mkDecision ConverterKind.magick ⟨"magick", ["heic"], ["png", "jpg", "webp"]⟩ "heic").tool.output :=
  (detectConverter_defaultOutput_mem "heic"
    (some ⟨"magick", ["heic"], ["png", "jpg", "webp"]⟩) none none none
    (mkDecision ConverterKind.magick ⟨"magick", ["heic"], ["png", "jpg", "webp"]⟩ "heic")
    (by decide)).1 (by decide)

/-- C6: for clipboard destination mode `buildOutputPath` builds
`{inputBaseName}-converted-{token}.{normalizedExt}` inside the system
temporary directory, and two calls with identical inputs but distinct fresh
tokens return different paths. -/
theorem buildOutputPath_clipboard_unique :
    ∀ (tmpdir token₁ token₂ inputPath outputExt : String) (outputDir : Option String),
      buildOutputPath tmpdir token₁ inputPath outputExt outputDir OutputDestination.clipboard =
        pathJoin tmpdir
          (basenameStem inputPath ++ "-converted-" ++ token₁ ++ "." ++ normalizeExt outputExt) ∧
      (∃ fname,
        buildOutputPath tmpdir token₁ inputPath outputExt outputDir OutputDestination.clipboard =
          tmpdir ++ "/" ++ fname) ∧
      (token₁ ≠ token₂ →
        buildOutputPath tmpdir token₁ inputPath outputExt outputDir OutputDestination.clipboard ≠
        buildOutputPath tmpdir token₂ inputPath outputExt outputDir OutputDestination.clipboard) := by
  intro tmpdir token₁ token₂ inputPath outputExt outputDir
  refine ⟨rfl, ⟨_, rfl⟩, ?_⟩
  intro hne heq
  apply hne
  have hd := congrArg String.data heq
  simp only [buildOutputPath, pathJoin, String.data_append, List.append_assoc] at hd
  have h1 := (List.append_right_inj _).mp hd
  have h2 := (List.append_right_inj _).mp h1
  have h3 := (List.append_right_inj _).mp h2
  have h4 := (List.append_right_inj _).mp h3
  rw [← List.append_assoc, ← List.append_assoc] at h4
  have h5 := (List.append_left_inj _).mp h4
  have h6 := (List.append_left_inj _).mp h5
  exact String.ext h6

/-- Witness for C6 at concrete inputs with two distinct tokens. -/
theorem buildOutputPath_clipboard_unique_witness :
    buildOutputPath "/tmp" "token-a" "/pics/photo.heic" "png" none OutputDestination.clipboard ≠
    buildOutputPath "/tmp" "token-b" "/pics/photo.heic" "png" none OutputDestination.clipboard :=
  (buildOutputPath_clipboard_unique "/tmp" "token-a" "token-b" "/pics/photo.heic" "png" none).2.2
    (by decide)

/-- C7: for save and save-and-clipboard destination modes `buildOutputPath`
returns `{outputDir}/{inputBaseName}.{normalizedExt}` when `outputDir` is
supplied and non-empty, and `{directoryOfInput}/{inputBaseName}.{normalizedExt}`
otherwise; the token plays no role, so two calls with identical inputs return
the same path. -/
theorem buildOutputPath_save_deterministic :
    ∀ (tmpdir token₁ token₂ inputPath outputExt : String) (outputDir : Option String)
      (dest : OutputDestination),
      (dest = OutputDestination.save ∨ dest = OutputDestination.both) →
      (∀ d, outputDir = some d → d ≠ "" →
        buildOutputPath tmpdir token₁ inputPath outputExt outputDir dest =
          pathJoin d (basenameStem inputPath ++ "." ++ normalizeExt outputExt)) ∧
      ((outputDir = none ∨ outputDir = some "") →
        buildOutputPath tmpdir token₁ inputPath outputExt outputDir dest =
          pathJoin (dirname inputPath) (basenameStem inputPath ++ "." ++ normalizeExt outputExt)) ∧
      buildOutputPath tmpdir token₁ inputPath outputExt outputDir dest =
        buildOutputPath tmpdir token₂ inputPath outputExt outputDir dest := by
  intro tmpdir token₁ token₂ inputPath outputExt outputDir dest hdest
  have hmatch : ∀ token : String,
      buildOutputPath tmpdir token inputPath outputExt outputDir dest =
        pathJoin
          (match outputDir with
           | some d => if d.length > 0 then d else dirname inputPath
           | none => dirname inputPath)
          (basenameStem inputPath ++ "." ++ normalizeExt outputExt) := by
    intro token
    rcases hdest with h | h <;> subst h <;> rfl
  refine ⟨?_, ?_, ?_⟩
  · intro d hd hne
    rw [hmatch token₁, hd]
    have hl : d.length > 0 := by
      cases hdd : d.data with
      | nil => exact absurd (String.ext hdd) hne
      | cons c cs => simp [String.length, hdd]
    simp [hl]
  · intro hcase
    rcases hcase with h | h
    · rw [hmatch token₁, h]
    · rw [hmatch token₁, h]
      simp [String.length]
  · rw [hmatch token₁, hmatch token₂]

/-- Witness for C7 at concrete inputs (save mode, explicit output directory). -/
theorem buildOutputPath_save_deterministic_witness :
    buildOutputPath "/tmp" "token-a" "/docs/report.docx" "pdf" (some "/out") OutputDestination.save =
      pathJoin "/out" (basenameStem "/docs/report.docx" ++ "." ++ normalizeExt "pdf") :=
  (buildOutputPath_save_deterministic "/tmp" "token-a" "token-b" "/docs/report.docx" "pdf"
    (some "/out") OutputDestination.save (Or.inl rfl)).1 "/out" rfl (by decide)

/-! ## Character-level lemmas for `normalizeExt` -/

theorem toNat_ofNat_upper (c : Char) (h1 : 65 ≤ c.toNat) (h2 : c.toNat ≤ 90) :
    (Char.ofNat (c.toNat + 32)).toNat = c.toNat + 32 := by
  set n := c.toNat with hn
  interval_cases n <;> decide

theorem lowerChar_not_upper (c : Char) :
    ¬(65 ≤ (lowerChar c).toNat ∧ (lowerChar c).toNat ≤ 90) := by
  unfold lowerChar
  split_ifs with h
  · rw [toNat_ofNat_upper c h.1 h.2]
    omega
  · exact h

theorem lowerChar_eq_self_of_not_upper (c : Char)
    (h : ¬(65 ≤ c.toNat ∧ c.toNat ≤ 90)) : lowerChar c = c := by
  unfold lowerChar
  exact if_neg h

theorem lowerChar_idem (c : Char) : lowerChar (lowerChar c) = lowerChar c :=
  lowerChar_eq_self_of_not_upper (lowerChar c) (lowerChar_not_upper c)

theorem isJsWs_eq_false_of_range (d : Char) (h1 : 65 ≤ d.toNat) (h2 : d.toNat ≤ 122) :
    isJsWs d = false := by
  simp only [isJsWs, Bool.or_eq_false_iff, beq_eq_false_iff_ne, ne_eq]
  omega

theorem isJsWs_lowerChar (c : Char) : isJsWs (lowerChar c) = isJsWs c := by
  unfold lowerChar
  split_ifs with h
  · have ht := toNat_ofNat_upper c h.1 h.2
    rw [isJsWs_eq_false_of_range _ (by omega) (by omega),
      isJsWs_eq_false_of_range c (by omega) (by omega)]
  · rfl

/-! ## Trim lemmas -/

theorem head?_dropWhile_ws (l : List Char) (c : Char)
    (h : (l.dropWhile isJsWs).head? = some c) : isJsWs c = false := by
  have := List.head?_dropWhile_not isJsWs l
  rw [h] at this
  exact this

theorem dropWhile_eq_self_of_head (p : Char → Bool) (l : List Char)
    (h : ∀ c, l.head? = some c → p c = false) : l.dropWhile p = l := by
  cases l with
  | nil => rfl
  | cons x xs => exact List.dropWhile_cons_of_neg (by simp [h x rfl])

theorem getLast?_trimChars_not_ws (l : List Char) (c : Char)
    (h : (trimChars l).getLast? = some c) : isJsWs c = false := by
  unfold trimChars dropTrailWs at h
  rw [List.getLast?_reverse] at h
  exact head?_dropWhile_ws _ c h

theorem trimChars_eq_self (l : List Char)
    (hh : ∀ c, l.head? = some c → isJsWs c = false)
    (hl : ∀ c, l.getLast? = some c → isJsWs c = false) : trimChars l = l := by
  unfold trimChars dropLeadWs dropTrailWs
  rw [dropWhile_eq_self_of_head isJsWs l hh]
  rw [dropWhile_eq_self_of_head isJsWs l.reverse (by
    intro c hc
    rw [List.head?_reverse] at hc
    exact hl c hc)]
  exact List.reverse_reverse l

theorem getLast?_stripDotChars (t : List Char) (d : Char)
    (h : (stripDotChars t).getLast? = some d) : t.getLast? = some d := by
  cases t with
  | nil => simp [stripDotChars] at h
  | cons c rest =>
    simp only [stripDotChars] at h
    split_ifs at h with hc
    · cases rest with
      | nil => simp at h
      | cons r0 rest2 => rw [List.getLast?_cons_cons]; exact h
    · exact h

theorem getLast?_normChars_not_ws (l : List Char) (c : Char)
    (h : (normChars l).getLast? = some c) : isJsWs c = false := by
  unfold normChars at h
  rw [List.getLast?_map] at h
  cases hy : (stripDotChars (trimChars l)).getLast? with
  | none => rw [hy] at h; simp at h
  | some d =>
    rw [hy] at h
    simp at h
    rw [← h, isJsWs_lowerChar]
    exact getLast?_trimChars_not_ws l d (getLast?_stripDotChars _ d hy)

/-! ## C8 -/

/-- Holds when the string begins with a dot or a JS whitespace character —
the shapes on which a second `normalizeExt` pass can still make progress. -/
def beginsDotOrWs (s : String) : Bool :=
  match s.data with
  | [] => false
  | c :: _ => c == '.' || isJsWs c

/-- C8 counterexample: `normalizeExt` strips only one leading dot, so it is
not idempotent — on `".."` it yields `"."`, and a second pass yields `""`. -/
theorem normalizeExt_not_idempotent :
    normalizeExt (normalizeExt "..") ≠ normalizeExt ".." := by decide

/-- C8 (amended): `normalizeExt` is idempotent on every input whose normalized
form does not itself begin with a dot or a whitespace character (in particular
on every ordinary extension), and `normalizeExt ".PNG" = "png"`. -/
theorem normalizeExt_idem_of_wellFormed :
    (∀ x : String, beginsDotOrWs (normalizeExt x) = false →
      normalizeExt (normalizeExt x) = normalizeExt x) ∧
    normalizeExt ".PNG" = "png" := by
  refine ⟨?_, by decide⟩
  intro x h
  show (⟨normChars (normalizeExt x).data⟩ : String) = normalizeExt x
  have hgoal : normChars (normalizeExt x).data = (normalizeExt x).data := by
    cases hr : (normalizeExt x).data with
    | nil => rfl
    | cons c rest =>
      have hc : (c == '.' || isJsWs c) = false := by
        unfold beginsDotOrWs at h
        rw [hr] at h
        exact h
      have hdot : ¬(c = '.') := by
        intro hcd
        simp [hcd] at hc
      have hws : isJsWs c = false := by
        rcases Bool.or_eq_false_iff.mp hc with ⟨_, hw⟩
        exact hw
      have hlast : ∀ d, (c :: rest).getLast? = some d → isJsWs d = false := by
        intro d hd
        apply getLast?_normChars_not_ws x.data d
        show (normChars x.data).getLast? = some d
        have : (normalizeExt x).data = normChars x.data := rfl
        rw [← this, hr]
        exact hd
      have htrim : trimChars (c :: rest) = c :: rest := by
        apply trimChars_eq_self
        · intro e he
          simp only [List.head?_cons, Option.some_inj] at he
          rw [← he]
          exact hws
        · exact hlast
      have hstrip : stripDotChars (c :: rest) = c :: rest := by
        unfold stripDotChars
        exact if_neg hdot
      have hmap : (c :: rest).map lowerChar = c :: rest := by
        have hform : (c :: rest) = (stripDotChars (trimChars x.data)).map lowerChar := by
          rw [← hr]
          rfl
        rw [hform, List.map_map]
        apply List.map_congr_left
        intro d _
        exact lowerChar_idem d
      unfold normChars
      rw [htrim, hstrip, hmap]
  calc (⟨normChars (normalizeExt x).data⟩ : String)
      = ⟨(normalizeExt x).data⟩ := by rw [hgoal]
    _ = normalizeExt x := rfl

/-- Witness for C8's amended statement at a concrete input. -/
theorem normalizeExt_idem_of_wellFormed_witness :
    beginsDotOrWs (normalizeExt " .JPG ") = false ∧
    normalizeExt (normalizeExt " .JPG ") = normalizeExt " .JPG " :=
  ⟨by decide, normalizeExt_idem_of_wellFormed.1 " .JPG " (by decide)⟩

/-! ## `uniqueSorted` lemmas -/

theorem dedupFirst_subset : ∀ l : List String, dedupFirst l ⊆ l := by
  intro l
  induction l using dedupFirst.induct with
  | case1 => simp [dedupFirst]
  | case2 x xs ih =>
    intro y hy
    rw [dedupFirst] at hy
    rcases List.mem_cons.mp hy with h | h
    · exact h ▸ List.mem_cons_self x xs
    · exact List.mem_cons_of_mem x (List.mem_of_mem_filter (ih h))

theorem dedupFirst_nodup : ∀ l : List String, (dedupFirst l).Nodup := by
  intro l
  induction l using dedupFirst.induct with
  | case1 => simp [dedupFirst]
  | case2 x xs ih =>
    rw [dedupFirst]
    refine List.Nodup.cons ?_ ih
    intro hx
    have := List.of_mem_filter (dedupFirst_subset _ hx)
    simp at this

/-- An extension entry that is lower-cased and carries no leading dot. -/
def extWellFormed (s : String) : Bool :=
  s.data.all (fun c => lowerChar c == c) &&
  (match s.data with
   | [] => true
   | c :: _ => !(c == '.'))

/-- C9 counterexample: the libreoffice descriptor's output list, exactly as
hard-coded by `ensureLibreOffice`, is not alphabetically sorted (`"pdf"`
precedes `"docx"`). -/
theorem libreOffice_output_not_sorted :
    ¬ List.Sorted (fun a b : String => a ≤ b)
      (libreOfficeDescriptor "soffice").output := by
  intro h
  have h1 : (("pdf" : String) ≤ "docx") :=
    List.rel_of_sorted_cons h "docx" (by simp [libreOfficeDescriptor, libreOfficeOutput])
  exact absurd (String.le_iff_toList_le.mp h1) (by decide)

/-- C9 (amended): lists built by `uniqueSorted` are deduplicated,
alphabetically sorted, and drawn from the non-empty entries fed to them (so
they are lower-cased and dot-free whenever those entries are, as the probed
tools' `normalizeExt`-processed entries are lower-cased); the libreoffice
descriptor's hard-coded lists are lower-cased, dot-free and duplicate-free,
in a fixed curated order rather than alphabetically sorted. -/
theorem toolFormats_lists_invariant :
    (∀ values : List String,
      List.Sorted (fun a b : String => a ≤ b) (uniqueSorted values) ∧
      (uniqueSorted values).Nodup ∧
      (∀ s ∈ uniqueSorted values, s ∈ values ∧ s ≠ "")) ∧
    (∀ bin : String,
      (libreOfficeDescriptor bin).input.Nodup ∧
      (libreOfficeDescriptor bin).output.Nodup ∧
      (∀ s ∈ (libreOfficeDescriptor bin).input, extWellFormed s = true) ∧
      (∀ s ∈ (libreOfficeDescriptor bin).output, extWellFormed s = true)) ∧
    (∀ x : String, (normalizeExt x).data.all (fun c => lowerChar c == c) = true) := by
  refine ⟨?_, ?_, ?_⟩
  · intro values
    refine ⟨?_, ?_, ?_⟩
    · have hs := @List.sorted_mergeSort String
        (fun a b : String => decide (a ≤ b))
        (fun a b c hab hbc => by
          simp only [decide_eq_true_eq] at *
          exact le_trans hab hbc)
        (fun a b => by
          simp only [Bool.or_eq_true, decide_eq_true_eq]
          exact le_total a b)
        (dedupFirst (values.filter (fun s => s != "")))
      exact hs.imp (fun h => of_decide_eq_true h)
    · exact (List.mergeSort_perm _ _).nodup_iff.mpr (dedupFirst_nodup _)
    · intro s hs
      have hmem : s ∈ dedupFirst (values.filter (fun v => v != "")) :=
        List.mem_mergeSort.mp hs
      have hf := dedupFirst_subset _ hmem
      refine ⟨List.mem_of_mem_filter hf, ?_⟩
      have := List.of_mem_filter hf
      simpa using this
  · intro bin
    refine ⟨?_, ?_, ?_, ?_⟩
    · show libreOfficeInput.Nodup
      decide
    · show libreOfficeOutput.Nodup
      decide
    · intro s hs
      have hs2 : s ∈ libreOfficeInput := hs
      fin_cases hs2 <;> decide
    · intro s hs
      have hs2 : s ∈ libreOfficeOutput := hs
      fin_cases hs2 <;> decide
  · intro x
    simp only [normalizeExt, normChars, List.all_eq_true]
    intro c hc
    rcases List.mem_map.mp hc with ⟨d, _, rfl⟩
    simpa using lowerChar_idem d

/-- Witness for C9's amended statement at a concrete input. -/
theorem toolFormats_lists_invariant_witness :
    ("png" : String) ∈ (["webp", "png", "", "png"] : List String) ∧ ("png" : String) ≠ "" :=
  (toolFormats_lists_invariant.1 ["webp", "png", "", "png"]).2.2 "png"
    (by simp [uniqueSorted, dedupFirst])

/-! ## C10 -/

/-- C10: `readClipboardFile` gives clipboard text strict precedence over
clipboard images — with no (truthy) file reference and non-empty text naming
no accessible path it returns `none` without attempting the platform image
capture, and the image capture is attempted exactly when the clipboard has
neither a truthy file reference nor truthy text. -/
theorem readClipboardFile_text_precedence :
    ∀ (content : ClipboardContent) (toPath : String → String)
      (accessible : String → Bool) (imageCapture : Option String),
      (truthy content.file = false →
        ∀ t, content.text = some t → t ≠ "" →
        accessible (textPathCandidate toPath (jsTrim t)) = false →
        readClipboardFile content toPath accessible imageCapture = (none, false)) ∧
      ((readClipboardFile content toPath accessible imageCapture).2 = true ↔
        (truthy content.file = false ∧ truthy content.text = false)) := by
  intro content toPath accessible imageCapture
  constructor
  · intro hf t ht hne hacc
    have htt : truthy (some t) = true := by
      simpa [truthy] using hne
    by_cases htr : jsTrim t = "" <;>
      simp [readClipboardFile, hf, ht, htt, htr, hacc]
  · cases hf : truthy content.file with
    | true => simp [readClipboardFile, hf]
    | false =>
      cases htxt : truthy content.text with
      | true =>
        by_cases htr : jsTrim (content.text.getD "") = ""
        · simp [readClipboardFile, hf, htxt, htr]
        · by_cases hacc : accessible (textPathCandidate toPath (jsTrim (content.text.getD "")))
          · simp [readClipboardFile, hf, htxt, htr, hacc]
          · simp [readClipboardFile, hf, htxt, htr, hacc]
      | false =>
        cases imageCapture <;> simp [readClipboardFile, hf, htxt]

/-- Witness for C10 at a concrete input: clipboard text that names no
accessible path yields `none` with no capture attempt. -/
theorem readClipboardFile_text_precedence_witness :
    readClipboardFile ⟨none, some "/no/such/file"⟩ id (fun _ => false) (some "/tmp/cap.png") =
      (none, false) :=
  (readClipboardFile_text_precedence ⟨none, some "/no/such/file"⟩ id (fun _ => false)
    (some "/tmp/cap.png")).1 rfl "/no/such/file" rfl (by decide) rfl

end FileForge
